import Mathlib

/-!
Verification development for the Aurora chatbot backend (`app.py`).

Strings are modelled as `List Char`; Python's `str.lower()` becomes
`List.map Char.toLower` and Python's substring test `a in b` becomes the
executable `strHas`.  Each function of `app.py` that the claims touch is
embedded as a Lean definition mirroring the Python statement by statement.
-/

namespace Aurora

/-- Strings of the Python program, modelled as character lists. -/
abbrev Str := List Char

/-- Python `s.lower()` (ASCII case folding, as used on the ASCII names here). -/
def lowerStr (s : Str) : Str := s.map Char.toLower

/-- Predicate `strStarts needle hay`: `hay` starts with `needle`. -/
def strStarts : Str → Str → Bool
  | [], _ => true
  | _ :: _, [] => false
  | a :: as, b :: bs => a == b && strStarts as bs

/-- Python's substring containment `needle in hay`. -/
def strHas (needle : Str) : Str → Bool
  | [] => strStarts needle []
  | b :: bs => strStarts needle (b :: bs) || strHas needle bs

/-- One chat message, with the field names of the JSON records `app.py` reads. -/
structure Message where
  user_name : Str
  message : Str
  timestamp : Str
deriving DecidableEq, Repr

/-- Function `extract_user_names`, generalised over the name list it scans
(`app.py` fixes the list to `known_users`). -/
def extractFrom (knownUsers : List Str) (question : Str) : List Str :=
  let questionLower := lowerStr question
  knownUsers.foldr
    (fun name found =>
      if strHas (lowerStr name) questionLower then name :: found else found) []

/-- The hard-coded `known_users` list of `extract_user_names`. -/
def known_users : List Str :=
  ["Layla".toList, "Vikram".toList, "Amira".toList, "Sophia".toList,
   "Fatima".toList, "Armand".toList, "Hans".toList, "Lorenzo".toList,
   "Lily".toList, "Thiago".toList, "Amina".toList]

/-- Embedding of `extract_user_names(question)` from `app.py`. -/
def extract_user_names (question : Str) : List Str :=
  extractFrom known_users question

/-- The inner loop of `filter_messages_by_user`: does any queried name,
lowercased, occur in the stored user name, lowercased?  (`break` after the
first hit.) -/
def matchesAnyName (userNames : List Str) (msgUser : Str) : Bool :=
  match userNames with
  | [] => false
  | q :: rest =>
    if strHas (lowerStr q) (lowerStr msgUser) then true
    else matchesAnyName rest msgUser

/-- Embedding of `filter_messages_by_user(messages, user_names)` from `app.py`. -/
def filter_messages_by_user (messages : List Message) (userNames : List Str) :
    List Message :=
  if userNames.isEmpty then messages
  else
    match messages with
    | [] => []
    | msg :: rest =>
      if matchesAnyName userNames msg.user_name then
        msg :: filter_messages_by_user rest userNames
      else filter_messages_by_user rest userNames

/-- Python string comparison `a < b` (lexicographic on code points). -/
def strLt : Str → Str → Bool
  | [], [] => false
  | [], _ :: _ => true
  | _ :: _, [] => false
  | a :: as, b :: bs =>
    if a < b then true else if b < a then false else strLt as bs

/-- Render one message as `[timestamp[:10]] text`, exactly the f-string of
`create_context_from_messages`. -/
def renderLine (m : Message) : Str :=
  "[".toList ++ m.timestamp.take 10 ++ "] ".toList ++ m.message

/-- The group header `\n=== user_name ===`. -/
def headerLine (userName : Str) : Str :=
  "\n=== ".toList ++ userName ++ " ===".toList

/-- Append a value under a key of an insertion-ordered association list —
the behaviour of the Python dict `user_messages` in
`create_context_from_messages`. -/
def groupInsert (key : Str) (val : α) : List (Str × List α) → List (Str × List α)
  | [] => [(key, [val])]
  | (u, vs) :: rest =>
    if u = key then (u, vs ++ [val]) :: rest
    else (u, vs) :: groupInsert key val rest

/-- The grouping pass of `create_context_from_messages`: a dict from
`user_name` to the list of already-rendered message lines, keys in
first-seen order, values in input order. -/
def groupByUser (messages : List Message) : List (Str × List Str) :=
  messages.foldl (fun acc m => groupInsert m.user_name (renderLine m) acc) []

/-- Insert one keyed group into a list sorted by key — helper for
`sortPairs`. -/
def insertPair (p : Str × List α) : List (Str × List α) → List (Str × List α)
  | [] => [p]
  | q :: rest =>
    if strLt p.1 q.1 then p :: q :: rest else q :: insertPair p rest

/-- Python's `sorted(user_messages.items())`: groups sorted by user name
ascending (keys are distinct, so only the key matters). -/
def sortPairs : List (Str × List α) → List (Str × List α)
  | [] => []
  | p :: rest => insertPair p (sortPairs rest)

/-- The inner emission loop of `create_context_from_messages`: append each
line to `context_parts`, bump `total_messages`, `break` once the total
reaches `max_messages`.  Returns the extended parts and the new total. -/
def buildInner (mx : ℕ) : List Str → List Str → ℕ → List Str × ℕ
  | [], parts, total => (parts, total)
  | l :: ls, parts, total =>
    let parts := parts ++ [l]
    let total := total + 1
    if mx ≤ total then (parts, total) else buildInner mx ls parts total

/-- The outer loop of `create_context_from_messages`: for each sorted
group, emit the header, cap the group at 50 lines when the input corpus
has at least 200 messages (`n` is `len(messages)`), run the inner loop,
and `break` once the total reaches `max_messages`. -/
def buildOuter (n mx : ℕ) : List (Str × List Str) → List Str → ℕ → List Str × ℕ
  | [], parts, total => (parts, total)
  | (u, msgs) :: rest, parts, total =>
    let parts := parts ++ [headerLine u]
    let toInclude := if n < 200 then msgs else msgs.take 50
    let r := buildInner mx toInclude parts total
    if mx ≤ r.2 then r else buildOuter n mx rest r.1 r.2

/-- Python's `"\n".join(parts)`. -/
def joinNL : List Str → Str
  | [] => []
  | [p] => p
  | p :: q :: rest => p ++ '\n' :: joinNL (q :: rest)

/-- Embedding of `create_context_from_messages(messages, max_messages)` from `app.py`
(the call sites use the default `max_messages = 500`). -/
def create_context_from_messages (messages : List Message) (mx : ℕ) : Str :=
  joinNL (buildOuter messages.length mx (sortPairs (groupByUser messages)) [] 0).1

/-- The number of message lines the Context Builder emits: the final value
of the `total_messages` counter, which the code bumps exactly once per
emitted message line. -/
def emittedLines (messages : List Message) (mx : ℕ) : ℕ :=
  (buildOuter messages.length mx (sortPairs (groupByUser messages)) [] 0).2

/-- Step 1 of the spec's Context Builder algorithm: group the raw messages
by `userName` into an ordered mapping, preserving first-seen order. -/
def groupRaw (messages : List Message) : List (Str × List Message) :=
  messages.foldl (fun acc m => groupInsert m.user_name m acc) []

/-- Step 5 of the spec's Context Builder algorithm, stated declaratively:
under each header emit the group's lines only up to the remaining budget
`maxLines - total`, and stop at the first group that exhausts it. -/
def emitSpec (mx : ℕ) : List (Str × List Str) → List Str → ℕ → List Str × ℕ
  | [], parts, total => (parts, total)
  | (u, lines) :: rest, parts, total =>
    let emitted := lines.take (mx - total)
    let parts := parts ++ [headerLine u] ++ emitted
    let total := total + emitted.length
    if mx ≤ total then (parts, total) else emitSpec mx rest parts total

/-- The Context Builder algorithm as the spec words it (section 4.5):
group raw messages by user preserving first-seen order, sort groups by
user name ascending, cap each group at 50 raw messages when the input
corpus has at least 200 messages, render each message as
`[timestamp[:10]] text` under its `=== userName ===` header, and emit with
a running total over all groups bounded by `maxLines`.  Used only to be
compared against `create_context_from_messages`. -/
def contextBuilderSpec (messages : List Message) (maxLines : ℕ) : Str :=
  let groups := sortPairs (groupRaw messages)
  let capped := groups.map fun g =>
    (g.1, if messages.length < 200 then g.2 else g.2.take 50)
  let rendered := capped.map fun g => (g.1, g.2.map renderLine)
  joinNL (emitSpec maxLines rendered [] 0).1

/-- The `MessageCache` state: `messages` and `last_updated`, both starting
as `None`.  Time is an integer number of seconds, passed explicitly where
the Python calls `datetime.now()`. -/
structure MessageCache where
  messages : Option (List Message)
  last_updated : Option Int
deriving Repr

/-- Embedding of `MessageCache.__init__`: both slots empty. -/
def cacheInit : MessageCache := ⟨none, none⟩

/-- Constant `cache_duration_seconds = 300`. -/
def cache_duration_seconds : Int := 300

/-- Embedding of `MessageCache.is_valid` at time `now`. -/
def cacheIsValid (now : Int) (c : MessageCache) : Bool :=
  match c.messages, c.last_updated with
  | some _, some t => decide (now - t < cache_duration_seconds)
  | _, _ => false

/-- Embedding of `MessageCache.set` at time `now`. -/
def cacheSet (now : Int) (msgs : List Message) (_ : MessageCache) : MessageCache :=
  ⟨some msgs, some now⟩

/-- Embedding of `MessageCache.get` at time `now`. -/
def cacheGet (now : Int) (c : MessageCache) : Option (List Message) :=
  if cacheIsValid now c then c.messages else none

/-- One page response of the messages endpoint, as `fetch_all_messages`
can observe it: a transport/status error (`httpx.HTTPError`), a body that
is not valid JSON (`json.JSONDecodeError` from `response.json()`), or a
JSON object whose `items` and `total` keys may each be absent
(`data.get("items", [])`, `data.get("total", 0)`). -/
inductive PageResponse where
  | netError : PageResponse
  | invalidJson : PageResponse
  | body (items : Option (List Message)) (total : Option ℕ) : PageResponse
deriving Repr

/-- The observable outcome of `fetch_all_messages`: a returned message
list; the `HTTPException(500, "Failed to fetch messages from API: ...")`
raised for an `httpx.HTTPError` (a descriptive server-side failure); an
uncaught `json.JSONDecodeError` escaping the function (the `except` clause
only catches `httpx.HTTPError`); or `fuelOut`, meaning the `while True`
loop was still running after the given number of iterations. -/
inductive FetchResult where
  | ok (messages : List Message) : FetchResult
  | fetchFailure : FetchResult
  | uncaughtDecodeError : FetchResult
  | fuelOut : FetchResult
deriving DecidableEq, Repr

/-- The `while True` pagination loop of `fetch_all_messages`, run against
an arbitrary server (a function from the `skip` cursor to that page's
response).  `fuel` bounds how many iterations we unfold; the Python loop
itself has no such bound. -/
def fetchLoop (server : ℕ → PageResponse) : ℕ → List Message → ℕ → ℕ → FetchResult
  | 0, _, _, _ => .fuelOut
  | fuel + 1, acc, skip, limit =>
    match server skip with
    | .netError => .fetchFailure
    | .invalidJson => .uncaughtDecodeError
    | .body itemsOpt totalOpt =>
      let items := itemsOpt.getD []
      if items.isEmpty then .ok acc
      else
        let acc := acc ++ items
        if totalOpt.getD 0 ≤ acc.length then .ok acc
        else fetchLoop server fuel acc (skip + limit) limit

/-- Embedding of `fetch_all_messages` on a cache miss: the loop from `skip = 0` with
`limit = 1000`, unfolded for `fuel` iterations. -/
def fetch_all_messages (server : ℕ → PageResponse) (fuel : ℕ) : FetchResult :=
  fetchLoop server fuel [] 0 1000

/-- A truthful server holding the corpus `corpus`: page at cursor `skip`
is `corpus[skip : skip + limit]` and the reported total is the true
corpus length. -/
def honestServer (corpus : List Message) (limit : ℕ) (skip : ℕ) : PageResponse :=
  .body (some ((corpus.drop skip).take limit)) (some corpus.length)

/-- A misbehaving server: every page is the same single message and the
reported total, `skip + 2000`, always exceeds what the client has
accumulated. -/
def restlessServer (m : Message) (skip : ℕ) : PageResponse :=
  .body (some [m]) (some (skip + 2000))

/-- The working-set selection of `answer_question_with_llm`: extract
names, filter when names were found, fall back to the full corpus when the
filter comes back empty.  The second component records whether the
empty-filter warning branch ran (`print("Warning: No messages found...")`)
— the code's observable signal of a filter miss. -/
def select_working_set (question : Str) (messages : List Message) :
    List Message × Bool :=
  let userNames := extract_user_names question
  if userNames.isEmpty then (messages, false)
  else
    let filtered := filter_messages_by_user messages userNames
    if filtered.isEmpty then (messages, true) else (filtered, false)

/-- A concrete message by "Layla Hassan", used to evaluate the embedded
functions at specific inputs. -/
def mLayla : Message :=
  ⟨"Layla Hassan".toList, "Trip to London".toList, "2024-03-01T10:00:00Z".toList⟩

/-- A concrete message by "Vikram Desai". -/
def mVikram : Message :=
  ⟨"Vikram Desai".toList, "I have three cars".toList, "2024-02-15T09:30:00".toList⟩

/- ------------------------------------------------------------------ -/
/- Theorems                                                           -/
/- ------------------------------------------------------------------ -/

/-- The inner loop of the filter is `List.any` of the lowered-substring
test. -/
theorem matchesAnyName_eq_any (ns : List Str) (u : Str) :
    matchesAnyName ns u = ns.any fun q => strHas (lowerStr q) (lowerStr u) := by
  induction ns with
  | nil => rfl
  | cons q rest ih =>
    by_cases h : strHas (lowerStr q) (lowerStr u) <;>
      simp [matchesAnyName, h, ih]

/-- Filter `filter_messages_by_user` is the identity on an empty name list and
`List.filter` of the per-message name test otherwise. -/
theorem filter_messages_by_user_eq (msgs : List Message) (ns : List Str) :
    filter_messages_by_user msgs ns =
      if ns.isEmpty then msgs
      else msgs.filter fun m => matchesAnyName ns m.user_name := by
  induction msgs with
  | nil => cases h : ns.isEmpty <;> simp [filter_messages_by_user, h]
  | cons m rest ih =>
    cases h : ns.isEmpty with
    | true => simp [filter_messages_by_user, h]
    | false =>
      simp only [h, Bool.false_eq_true, if_false] at ih ⊢
      by_cases hm : matchesAnyName ns m.user_name <;>
        simp [filter_messages_by_user, h, hm, ih, List.filter_cons]

/-- C3: with an empty queried-name list the Message Filter returns the
corpus unchanged; otherwise it returns exactly the input messages whose
stored user name, lowercased, contains some queried name, lowercased, in
their original relative order (`List.filter` preserves order). -/
theorem c3_filter_semantics (msgs : List Message) (ns : List Str) :
    filter_messages_by_user msgs ns =
      if ns.isEmpty then msgs
      else msgs.filter fun m =>
        ns.any fun q => strHas (lowerStr q) (lowerStr m.user_name) := by
  rw [filter_messages_by_user_eq]
  simp [matchesAnyName_eq_any]

/-- C10: the Message Filter's output is a subsequence of its input, so no
input occurrence of a message is ever emitted twice — even when several
queried names match the same user name, the `break` appends it once. -/
theorem c10_filter_no_duplicates (msgs : List Message) (ns : List Str) :
    (filter_messages_by_user msgs ns).Sublist msgs ∧
      ∀ m : Message,
        (filter_messages_by_user msgs ns).count m ≤ msgs.count m := by
  have hs : (filter_messages_by_user msgs ns).Sublist msgs := by
    rw [filter_messages_by_user_eq]
    cases h : ns.isEmpty <;> simp [List.filter_sublist]
  exact ⟨hs, fun m => hs.count_le m⟩

/-- The extractor loop is `List.filter` of the lowered-substring test. -/
theorem extractFrom_eq_filter (l : List Str) (q : Str) :
    extractFrom l q = l.filter fun n => strHas (lowerStr n) (lowerStr q) := by
  induction l with
  | nil => rfl
  | cons n rest ih =>
    by_cases h : strHas (lowerStr n) (lowerStr q) <;>
      simp [extractFrom, List.filter_cons, h, ih] <;>
      simpa [extractFrom] using ih

/-- C9: the Entity Extractor returns exactly the known names whose
lowercased form occurs in the lowercased question; the resulting set is
invariant under permutations of the scanned name list; and the question
"LAYLA and vikram" yields exactly Layla and Vikram. -/
theorem c9_extractor_characterization :
    (∀ (q n : Str), n ∈ extract_user_names q ↔
      n ∈ known_users ∧ strHas (lowerStr n) (lowerStr q) = true) ∧
    (∀ (l₁ l₂ : List Str) (q : Str), List.Perm l₁ l₂ →
      ∀ n : Str, n ∈ extractFrom l₁ q ↔ n ∈ extractFrom l₂ q) ∧
    extract_user_names ("LAYLA and vikram".toList) =
      ["Layla".toList, "Vikram".toList] := by
  refine ⟨fun q n => ?_, fun l₁ l₂ q hperm n => ?_, by decide⟩
  · simp [extract_user_names, extractFrom_eq_filter, List.mem_filter]
  · simp [extractFrom_eq_filter, List.mem_filter, hperm.mem_iff]

/-- C9 witness: the permutation part at a concrete pair of name lists. -/
theorem c9_extractor_characterization_witness :
    "Layla".toList ∈
        extractFrom ["Vikram".toList, "Layla".toList] ("LAYLA and vikram".toList) ↔
      "Layla".toList ∈
        extractFrom ["Layla".toList, "Vikram".toList] ("LAYLA and vikram".toList) :=
  c9_extractor_characterization.2.1 _ _ _
    (List.Perm.swap ("Layla".toList) ("Vikram".toList) []) _

/-- C8: the cache obeys its TTL contract — a `set` at `t` followed by a
`get` at `now` returns the stored corpus iff the age is under the 300s
TTL, a never-set cache yields nothing, and of two `set`s the later one is
what a valid `get` returns. -/
theorem c8_cache_ttl (c : MessageCache) (msgs msgs₂ : List Message)
    (t t₂ now : Int) :
    (now - t < cache_duration_seconds →
      cacheGet now (cacheSet t msgs c) = some msgs) ∧
    (cache_duration_seconds ≤ now - t →
      cacheGet now (cacheSet t msgs c) = none) ∧
    cacheGet now cacheInit = none ∧
    (now - t₂ < cache_duration_seconds →
      cacheGet now (cacheSet t₂ msgs₂ (cacheSet t msgs c)) = some msgs₂) := by
  refine ⟨fun h => ?_, fun h => ?_, ?_, fun h => ?_⟩
  · simp [cacheGet, cacheIsValid, cacheSet, h]
  · simp [cacheGet, cacheIsValid, cacheSet, not_lt.mpr h]
  · simp [cacheGet, cacheIsValid, cacheInit]
  · simp [cacheGet, cacheIsValid, cacheSet, h]

/-- C8 witness: the TTL contract evaluated at concrete times 100 and 400
for a `set` at time 0, and at 100 for a second `set` at time 50. -/
theorem c8_cache_ttl_witness :
    cacheGet 100 (cacheSet 0 [mLayla] cacheInit) = some [mLayla] ∧
    cacheGet 400 (cacheSet 0 [mLayla] cacheInit) = none ∧
    cacheGet 100 (cacheSet 50 [mVikram] (cacheSet 0 [mLayla] cacheInit)) =
      some [mVikram] :=
  ⟨(c8_cache_ttl cacheInit [mLayla] [mVikram] 0 50 100).1 (by decide),
   (c8_cache_ttl cacheInit [mLayla] [mVikram] 0 50 400).2.1 (by decide),
   (c8_cache_ttl cacheInit [mLayla] [mVikram] 0 50 100).2.2.2 (by decide)⟩

/-- C6: the Answer Orchestrator's miss signal is sound and complete — the
warning branch runs exactly when names were extracted but the filter came
back empty — and whenever it runs the working set is the full unfiltered
corpus (the selection is total: no exception is possible). -/
theorem c6_miss_fallback (q : Str) (msgs : List Message) :
    ((select_working_set q msgs).2 = true ↔
      (extract_user_names q).isEmpty = false ∧
        (filter_messages_by_user msgs (extract_user_names q)).isEmpty = true) ∧
    ((select_working_set q msgs).2 = true →
      (select_working_set q msgs).1 = msgs) := by
  unfold select_working_set
  by_cases h1 : (extract_user_names q).isEmpty <;>
    by_cases h2 : (filter_messages_by_user msgs (extract_user_names q)).isEmpty <;>
      simp [h1, h2]

/-- C6 witness: asking about Layla against a corpus holding only Vikram's
messages signals the miss and falls back to the full corpus. -/
theorem c6_miss_fallback_witness :
    (select_working_set ("where is layla?".toList) [mVikram]).1 = [mVikram] :=
  (c6_miss_fallback ("where is layla?".toList) [mVikram]).2 (by decide)

/-- Against a truthful server the pagination loop, entered mid-run with
the first `skip` items already accumulated, finishes with the whole
corpus once given more iterations than items remain. -/
theorem fetchLoop_honest (corpus : List Message) (limit : ℕ) (hl : 1 ≤ limit) :
    ∀ fuel skip, corpus.length - skip < fuel →
      fetchLoop (honestServer corpus limit) fuel (corpus.take skip) skip limit =
        .ok corpus := by
  intro fuel
  induction fuel with
  | zero => intro skip h; omega
  | succ f ih =>
    intro skip h
    rw [fetchLoop]
    simp only [honestServer, Option.getD_some]
    by_cases hempty : ((corpus.drop skip).take limit).isEmpty
    · have hnil : (corpus.drop skip).take limit = [] := by
        simpa [List.isEmpty_iff] using hempty
      have hlen : corpus.length ≤ skip := by
        rcases List.take_eq_nil_iff.mp hnil with h0 | hd
        · omega
        · exact List.drop_eq_nil_iff.mp hd
      simp [hempty, List.take_of_length_le hlen]
    · have hacc : corpus.take skip ++ (corpus.drop skip).take limit =
          corpus.take (skip + limit) := (List.take_add corpus skip limit).symm
      by_cases hdone :
          corpus.length ≤ (corpus.take skip ++ (corpus.drop skip).take limit).length
      · have hfull : corpus.length ≤ skip + limit := by
          have := hdone
          rw [hacc, List.length_take] at this
          omega
        simp [hempty, hdone, hacc, List.take_of_length_le hfull]
      · have hlt : skip + limit < corpus.length := by
          have := hdone
          rw [hacc, List.length_take] at this
          omega
        have hfuel : corpus.length - (skip + limit) < f := by omega
        simp only [hempty, if_false, hdone, Bool.false_eq_true]
        rw [hacc]
        exact ih (skip + limit) hfuel

/-- C5: for every corpus and page size the fetch terminates against a
truthful server — one reporting the true item count as `total` — and
returns exactly the concatenation of all pages, i.e. the corpus in server
delivery order; in particular `fetch_all_messages` (page size 1000) does. -/
theorem c5_honest_pagination (corpus : List Message) (limit : ℕ)
    (hl : 1 ≤ limit) :
    fetchLoop (honestServer corpus limit) (corpus.length + 1) [] 0 limit =
        .ok corpus ∧
      fetch_all_messages (honestServer corpus 1000) (corpus.length + 1) =
        .ok corpus := by
  constructor
  · have := fetchLoop_honest corpus limit hl (corpus.length + 1) 0 (by omega)
    simpa using this
  · have := fetchLoop_honest corpus 1000 (by omega) (corpus.length + 1) 0 (by omega)
    simpa [fetch_all_messages] using this

/-- C5 witness: a three-message corpus fetched with page size 2. -/
theorem c5_honest_pagination_witness :
    fetchLoop (honestServer [mLayla, mVikram, mLayla] 2) 4 [] 0 2 =
      .ok [mLayla, mVikram, mLayla] :=
  (c5_honest_pagination [mLayla, mVikram, mLayla] 2 (by decide)).1

/-- The misbehaving server defeats every iteration budget: as long as the
accumulated count stays at most `skip` (which each round preserves), no
exit condition of the loop ever fires. -/
theorem fetchLoop_restless (m : Message) :
    ∀ fuel skip (acc : List Message), acc.length ≤ skip →
      fetchLoop (restlessServer m) fuel acc skip 1000 = .fuelOut := by
  intro fuel
  induction fuel with
  | zero => intro skip acc _; rfl
  | succ f ih =>
    intro skip acc hle
    rw [fetchLoop]
    simp only [restlessServer, Option.getD_some]
    have hnotdone : ¬ (skip + 2000 ≤ (acc ++ [m]).length) := by
      simp [List.length_append]; omega
    simp only [List.isEmpty_cons, if_false, Bool.false_eq_true]
    rw [if_neg hnotdone]
    exact ih (skip + 1000) (acc ++ [m]) (by simp; omega)

/-- C2 counterexample: the fetch loop is not capped.  Against a server
whose pages are never empty and whose reported total (2000 on the first
page) always exceeds the accumulated count, `fetch_all_messages` is still
running after 100 page requests — far beyond the claimed
`total/limit + 2 = 4` pages. -/
theorem c2_uncapped_counterexample :
    fetch_all_messages (restlessServer mLayla) 100 = .fuelOut :=
  fetchLoop_restless mLayla 100 0 [] (by decide)

/-- C2 amended: the loop trusts the server's reported total
unconditionally and has no iteration cap — on a server that keeps
returning a non-empty page while reporting a total above the accumulated
count, the fetch never finishes: every iteration budget is exhausted. -/
theorem c2_no_iteration_cap (m : Message) (fuel : ℕ) :
    fetch_all_messages (restlessServer m) fuel = .fuelOut :=
  fetchLoop_restless m fuel 0 [] (by decide)

/-- C7 counterexample: a page that cannot be parsed into the expected
`{ items, total }` shape — a JSON object with neither key — produces no
failure at all: `data.get("items", [])` yields an empty page, the loop
breaks, and the fetch returns an empty corpus successfully. -/
theorem c7_wrong_shape_counterexample :
    fetch_all_messages (fun _ => PageResponse.body none none) 5 = .ok [] := by
  rfl

/-- C7 amended: only `httpx.HTTPError` (unreachable endpoint or non-2xx
status) becomes the descriptive 500 failure; a body that is not valid
JSON raises an uncaught `json.JSONDecodeError` (the `except` clause does
not catch it), and a JSON body missing the expected keys succeeds with the
missing `items` read as an empty page. -/
theorem c7_parse_failure_behaviour (fuel : ℕ) (hf : 1 ≤ fuel) :
    fetch_all_messages (fun _ => PageResponse.invalidJson) fuel =
        .uncaughtDecodeError ∧
      fetch_all_messages (fun _ => PageResponse.body none none) fuel = .ok [] ∧
      fetch_all_messages (fun _ => PageResponse.netError) fuel = .fetchFailure := by
  match fuel with
  | 0 => omega
  | f + 1 => exact ⟨rfl, rfl, rfl⟩

/-- C7 witness: the three page behaviours at one loop iteration. -/
theorem c7_parse_failure_behaviour_witness :
    fetch_all_messages (fun _ => PageResponse.invalidJson) 1 =
        .uncaughtDecodeError ∧
      fetch_all_messages (fun _ => PageResponse.body none none) 1 = .ok [] ∧
      fetch_all_messages (fun _ => PageResponse.netError) 1 = .fetchFailure :=
  c7_parse_failure_behaviour 1 (by decide)

/-- Entering the inner emission loop under budget keeps the final count at
or below the budget: the counter is checked right after each increment. -/
theorem buildInner_bound (mx : ℕ) :
    ∀ (lines parts : List Str) (total : ℕ), total < mx →
      (buildInner mx lines parts total).2 ≤ mx := by
  intro lines
  induction lines with
  | nil => intro parts total h; simpa [buildInner] using Nat.le_of_lt h
  | cons l ls ih =>
    intro parts total h
    simp only [buildInner]
    by_cases hc : mx ≤ total + 1
    · simp only [hc, if_true]
      omega
    · simp only [hc, if_false]
      exact ih (parts ++ [l]) (total + 1) (by omega)

/-- Entering the outer emission loop under budget keeps the final count at
or below the budget. -/
theorem buildOuter_bound (n mx : ℕ) :
    ∀ (gs : List (Str × List Str)) (parts : List Str) (total : ℕ),
      total < mx → (buildOuter n mx gs parts total).2 ≤ mx := by
  intro gs
  induction gs with
  | nil => intro parts total h; simpa [buildOuter] using Nat.le_of_lt h
  | cons g rest ih =>
    intro parts total h
    obtain ⟨u, msgs⟩ := g
    simp only [buildOuter]
    by_cases hc : mx ≤
        (buildInner mx (if n < 200 then msgs else msgs.take 50)
          (parts ++ [headerLine u]) total).2
    · simpa [hc] using buildInner_bound mx _ _ total h
    · simp only [hc, if_false]
      exact ih _ _ (by omega)

/-- C1 (amended): for every corpus and every positive line budget the
Context Builder emits at most `maxLines` message lines — the running
total is checked after each emission and both loops break once it reaches
the budget. -/
theorem c1_line_budget (messages : List Message) (mx : ℕ) (h : 1 ≤ mx) :
    emittedLines messages mx ≤ mx :=
  buildOuter_bound messages.length mx _ [] 0 (by omega)

/-- C1 witness: a two-message corpus under budget 1 emits at most 1 line. -/
theorem c1_line_budget_witness : emittedLines [mLayla, mVikram] 1 ≤ 1 :=
  c1_line_budget [mLayla, mVikram] 1 (by decide)

/-- C1 counterexample: with `max_messages = 0` a one-message corpus still
emits one message line — the budget check runs only after a line has been
appended, so the bound fails for a zero budget. -/
theorem c1_zero_budget_counterexample : ¬ emittedLines [mLayla] 0 ≤ 0 := by
  decide

/-- Grouping with rendered values is rendering after grouping raw
messages: one insertion step. -/
theorem groupInsert_map_render (key : Str) (m : Message)
    (acc : List (Str × List Message)) :
    groupInsert key (renderLine m) (acc.map fun g => (g.1, g.2.map renderLine)) =
      (groupInsert key m acc).map fun g => (g.1, g.2.map renderLine) := by
  induction acc with
  | nil => rfl
  | cons g rest ih =>
    obtain ⟨u, vs⟩ := g
    by_cases h : u = key <;> simp [groupInsert, h, ih]

/-- The Python dict of rendered lines is the raw grouping with every
message rendered. -/
theorem groupByUser_eq (messages : List Message) :
    groupByUser messages =
      (groupRaw messages).map fun g => (g.1, g.2.map renderLine) := by
  suffices h : ∀ acc : List (Str × List Message),
      messages.foldl (fun acc m => groupInsert m.user_name (renderLine m) acc)
          (acc.map fun g => (g.1, g.2.map renderLine)) =
        (messages.foldl (fun acc m => groupInsert m.user_name m acc) acc).map
          fun g => (g.1, g.2.map renderLine) by
    simpa using h []
  induction messages with
  | nil => intro acc; rfl
  | cons m rest ih =>
    intro acc
    simp only [List.foldl_cons, groupInsert_map_render, ih]

/-- Sorted insertion only compares keys, so it commutes with rendering the
values. -/
theorem insertPair_map_render (p : Str × List Message)
    (l : List (Str × List Message)) :
    insertPair (p.1, p.2.map renderLine) (l.map fun g => (g.1, g.2.map renderLine)) =
      (insertPair p l).map fun g => (g.1, g.2.map renderLine) := by
  induction l with
  | nil => rfl
  | cons q rest ih =>
    by_cases h : strLt p.1 q.1 <;> simp [insertPair, h, ih]

/-- Sorting the groups commutes with rendering the values. -/
theorem sortPairs_map_render (l : List (Str × List Message)) :
    sortPairs (l.map fun g => (g.1, g.2.map renderLine)) =
      (sortPairs l).map fun g => (g.1, g.2.map renderLine) := by
  induction l with
  | nil => rfl
  | cons p rest ih =>
    simpa [sortPairs, ih] using insertPair_map_render p (sortPairs rest)

/-- The operational inner loop, entered under budget, emits exactly the
remaining-budget prefix of its lines. -/
theorem buildInner_char (mx : ℕ) :
    ∀ (lines parts : List Str) (total : ℕ), total < mx →
      buildInner mx lines parts total =
        (parts ++ lines.take (mx - total),
          total + min (mx - total) lines.length) := by
  intro lines
  induction lines with
  | nil => intro parts total h; simp [buildInner]
  | cons l ls ih =>
    intro parts total h
    simp only [buildInner]
    by_cases hc : mx ≤ total + 1
    · have hk : mx - total = 1 := by omega
      simp only [hc, if_true, hk, List.take_succ_cons, List.take_zero]
      refine congrArg₂ Prod.mk rfl ?_
      simp only [List.length_cons]
      omega
    · simp only [hc, if_false]
      rw [ih (parts ++ [l]) (total + 1) (by omega)]
      have hk : mx - total = (mx - (total + 1)) + 1 := by omega
      rw [hk, List.take_succ_cons]
      refine congrArg₂ Prod.mk ?_ ?_
      · simp
      · simp only [List.length_cons]
        omega

/-- The source's outer loop equals the spec's declarative emission over
the pre-capped groups. -/
theorem buildOuter_eq_emitSpec (n mx : ℕ) :
    ∀ (gs : List (Str × List Str)) (parts : List Str) (total : ℕ),
      total < mx →
      buildOuter n mx gs parts total =
        emitSpec mx (gs.map fun g => (g.1, if n < 200 then g.2 else g.2.take 50))
          parts total := by
  intro gs
  induction gs with
  | nil => intro parts total h; rfl
  | cons g rest ih =>
    intro parts total h
    obtain ⟨u, msgs⟩ := g
    simp only [buildOuter, List.map_cons, emitSpec]
    rw [buildInner_char mx _ _ total h]
    simp only [List.length_take, List.append_assoc]
    by_cases hc : mx ≤ total + min (mx - total)
        (if n < 200 then msgs else msgs.take 50).length
    · simp [hc]
    · simp only [hc, if_false]
      exact ih _ _ (by omega)

/-- C4: for every corpus and positive line budget the Context Builder
computes exactly what the spec's five-step algorithm describes: raw
first-seen grouping, ascending sort by user name, the 50-message per-user
cap exactly when the input corpus has at least 200 messages, rendering as
`[timestamp[:10]] text` under `=== userName ===` headers, and budgeted
emission. -/
theorem c4_context_builder_follows_spec (messages : List Message) (mx : ℕ)
    (h : 1 ≤ mx) :
    create_context_from_messages messages mx = contextBuilderSpec messages mx := by
  unfold create_context_from_messages contextBuilderSpec
  rw [groupByUser_eq, sortPairs_map_render,
    buildOuter_eq_emitSpec messages.length mx _ [] 0 (by omega)]
  have hmaps : ∀ L : List (Str × List Message),
      ((L.map fun g => (g.1, g.2.map renderLine)).map fun g =>
          (g.1, if messages.length < 200 then g.2 else g.2.take 50)) =
        (L.map fun g =>
            (g.1, if messages.length < 200 then g.2 else g.2.take 50)).map
          fun g => (g.1, g.2.map renderLine) := by
    intro L
    induction L with
    | nil => rfl
    | cons g rest ihL =>
      by_cases h200 : messages.length < 200 <;>
        simp [h200, ihL, List.map_take]
  rw [hmaps]

/-- C4 witness: source and spec agree on a concrete two-user corpus with
the default budget 500. -/
theorem c4_context_builder_follows_spec_witness :
    create_context_from_messages [mVikram, mLayla] 500 =
      contextBuilderSpec [mVikram, mLayla] 500 :=
  c4_context_builder_follows_spec [mVikram, mLayla] 500 (by decide)

end Aurora
